/-
Verification of the strollin repository against its specification.

The development shallowly embeds the three Python modules:
  * `spotify_client.py` — mapping lookup and the playback dispatch of
    `SpotifyClient.play_for`, plus the mapping-file loading fallback of
    `SpotifyClient.__init__`;
  * `faces.py` — `load_known_faces` over a modelled directory tree and
    `recognize_faces` over a modelled external face library;
  * `app.py` — the cooldown-gated trigger logic of the main loop.

Python dictionaries are modelled as association lists, timestamps as
rationals, fallible operations as `Option`, and the external
`face_recognition` / `cv2` library as an explicit record of functions whose
invocations are logged.
-/
import Mathlib

namespace Strollin

/-! ## Model of `spotify_client.py` -/

/-- Character-list version of Python `str.startswith`: `isPre p s` holds when
`p` is an initial segment of `s`. -/
def isPre : List Char → List Char → Bool
  | [], _ => true
  | _ :: _, [] => false
  | c :: cs, d :: ds => c == d && isPre cs ds

/-- Python `uri.startswith(p)` on strings. -/
def strStartsWith (s p : String) : Bool :=
  isPre p.toList s.toList

/-- The argument shape of the single Spotipy call made by `play_for`:
either `start_playback(uris=[...])` or `start_playback(context_uri=...)`. -/
inductive PlayAction where
  | startTracks (uris : List String)
  | startContext (uri : String)
  deriving DecidableEq

/-- Observable outcome of `play_for`: either the "No mapping found" report
with no API call, or a playback-start call with the given arguments. -/
inductive PlayOutcome where
  | noMapping
  | played (a : PlayAction)
  deriving DecidableEq

/-- `self.mappings.get(name)` on the JSON-loaded dict, modelled as first-key
lookup on an association list. -/
def lookupMapping : List (String × String) → String → Option String
  | [], _ => none
  | (k, v) :: rest, n => if k = n then some v else lookupMapping rest n

/-- `SpotifyClient.play_for` (spotify_client.py lines 109-119).
`mappings.get(name)` returning `None`, or an empty (falsy) string, takes the
"no mapping" early return; otherwise the URI is dispatched on its
`spotify:track:` head. -/
def play_for (mappings : List (String × String)) (name : String) : PlayOutcome :=
  match lookupMapping mappings name with
  | none => .noMapping
  | some uri =>
    if uri = "" then .noMapping
    else if strStartsWith uri "spotify:track:" then .played (.startTracks [uri])
    else .played (.startContext uri)

/-- Outcome of reading `mappings.json` in `SpotifyClient.__init__`
(lines 86-92): `none` models `open` raising (file absent), `some none`
models `json.load` raising (unparseable), `some (some m)` a parsed mapping.
The `except` clause turns both failures into the empty mapping. -/
def loadMappings : Option (Option (List (String × String))) → List (String × String)
  | none => []
  | some none => []
  | some (some m) => m

theorem isPre_nil_false (c : Char) (cs : List Char) :
    isPre (c :: cs) [] = false := rfl

theorem strStartsWith_empty_track :
    strStartsWith "" "spotify:track:" = false := by decide

/-- C2: a mapped URI beginning with `spotify:track:` is submitted as a
one-element explicit track list; any other non-empty mapped URI is submitted
as a playback context. -/
theorem play_for_dispatch (m : List (String × String)) (name uri : String)
    (hlook : lookupMapping m name = some uri) :
    (strStartsWith uri "spotify:track:" = true →
      play_for m name = .played (.startTracks [uri])) ∧
    (uri ≠ "" → strStartsWith uri "spotify:track:" = false →
      play_for m name = .played (.startContext uri)) := by
  constructor
  · intro htr
    have hne : uri ≠ "" := by
      intro h
      rw [h] at htr
      exact absurd htr (by decide)
    simp [play_for, hlook, hne, htr]
  · intro hne hfalse
    simp [play_for, hlook, hne, hfalse]

theorem play_for_dispatch_witness :
    play_for [("Alice", "spotify:track:123")] "Alice"
        = .played (.startTracks ["spotify:track:123"]) ∧
    play_for [("Bob", "spotify:playlist:456")] "Bob"
        = .played (.startContext "spotify:playlist:456") :=
  ⟨(play_for_dispatch _ "Alice" _ (by decide)).1 (by decide),
   (play_for_dispatch _ "Bob" _ (by decide)).2 (by decide) (by decide)⟩

/-- C7: a name absent from the mapping results in the "no mapping" report
and no playback call, for any mapping. -/
theorem play_for_absent (m : List (String × String)) (name : String)
    (habs : lookupMapping m name = none) :
    play_for m name = .noMapping := by
  simp [play_for, habs]

theorem play_for_absent_witness :
    lookupMapping [("Alice", "spotify:track:123")] "Carol" = none ∧
    play_for [("Alice", "spotify:track:123")] "Carol" = .noMapping :=
  ⟨by decide, play_for_absent _ "Carol" (by decide)⟩

/-- C9: a name mapped to the empty (falsy) URI string takes the same
"no mapping" path: report, no API call, normal return. -/
theorem play_for_empty_uri (m : List (String × String)) (name : String)
    (hempty : lookupMapping m name = some "") :
    play_for m name = .noMapping := by
  simp [play_for, hempty]

theorem play_for_empty_uri_witness :
    lookupMapping [("Bob", "")] "Bob" = some "" ∧
    play_for [("Bob", "")] "Bob" = .noMapping :=
  ⟨by decide, play_for_empty_uri _ "Bob" (by decide)⟩

/-- C8: an absent or unparseable mappings file yields the empty mapping at
construction (no exception escapes the `try`), and with the empty mapping
`play_for` never issues a playback call for any name. -/
theorem loadMappings_failure_no_playback :
    loadMappings none = [] ∧ loadMappings (some none) = [] ∧
    (∀ name, play_for (loadMappings none) name = .noMapping) ∧
    (∀ name, play_for (loadMappings (some none)) name = .noMapping) :=
  ⟨rfl, rfl, fun _ => rfl, fun _ => rfl⟩

/-! ## Model of `faces.py`: `load_known_faces` -/

/-- One entry of `os.listdir(known_dir)`: either a non-directory entry,
which the outer loop skips, or a person directory. Each file inside a person
directory is the result of `load_image_file` + `face_encodings` on it:
`none` when either call raised (the file is skipped), `some l` the returned
encoding list `l` (possibly empty when no face was found). -/
inductive RootEntry (α : Type) where
  | file : RootEntry α
  | dir (name : String) (files : List (Option (List α))) : RootEntry α

/-- Inner loop of `load_known_faces` over one person directory
(faces.py lines 54-64): keep the first encoding of each file whose encoding
list is non-empty, labelled with the directory name. -/
def loadPerson {α : Type} (name : String) : List (Option (List α)) → List α × List String
  | [] => ([], [])
  | none :: rest => loadPerson name rest
  | some [] :: rest => loadPerson name rest
  | some (e :: _) :: rest =>
    ((loadPerson name rest).1.cons e, (loadPerson name rest).2.cons name)

/-- Outer loop of `load_known_faces` over `os.listdir(known_dir)`
(faces.py lines 50-64): non-directory entries are skipped. -/
def loadEntries {α : Type} : List (RootEntry α) → List α × List String
  | [] => ([], [])
  | .file :: rest => loadEntries rest
  | .dir name files :: rest =>
    ((loadPerson name files).1 ++ (loadEntries rest).1,
     (loadPerson name files).2 ++ (loadEntries rest).2)

/-- `load_known_faces` (faces.py lines 45-65): `none` models a root
directory for which `os.path.isdir` is false, giving the early return of the
two empty lists. -/
def load_known_faces {α : Type} : Option (List (RootEntry α)) → List α × List String
  | none => ([], [])
  | some entries => loadEntries entries

/-- The same traversal as `load_known_faces`, producing each kept encoding
paired with its person label, used to state the index correspondence. -/
def personPairs {α : Type} (name : String) : List (Option (List α)) → List (α × String)
  | [] => []
  | none :: rest => personPairs name rest
  | some [] :: rest => personPairs name rest
  | some (e :: _) :: rest => (e, name) :: personPairs name rest

/-- Paired form of `loadEntries`. -/
def entriesPairs {α : Type} : List (RootEntry α) → List (α × String)
  | [] => []
  | .file :: rest => entriesPairs rest
  | .dir name files :: rest => personPairs name files ++ entriesPairs rest

/-- Paired form of `load_known_faces`. -/
def loadPairs {α : Type} : Option (List (RootEntry α)) → List (α × String)
  | none => []
  | some entries => entriesPairs entries

theorem loadPerson_eq_pairs {α : Type} (name : String) :
    ∀ files : List (Option (List α)),
      loadPerson name files
        = ((personPairs name files).map Prod.fst,
           (personPairs name files).map Prod.snd)
  | [] => rfl
  | none :: rest => by
    simpa [loadPerson, personPairs] using loadPerson_eq_pairs name rest
  | some [] :: rest => by
    simpa [loadPerson, personPairs] using loadPerson_eq_pairs name rest
  | some (e :: _) :: rest => by
    simp [loadPerson, personPairs, loadPerson_eq_pairs name rest]

theorem loadEntries_eq_pairs {α : Type} :
    ∀ entries : List (RootEntry α),
      loadEntries entries
        = ((entriesPairs entries).map Prod.fst,
           (entriesPairs entries).map Prod.snd)
  | [] => rfl
  | .file :: rest => by
    simpa [loadEntries, entriesPairs] using loadEntries_eq_pairs rest
  | .dir name files :: rest => by
    simp [loadEntries, entriesPairs, loadEntries_eq_pairs rest,
      loadPerson_eq_pairs name files]

/-- C3: the two collections returned by `load_known_faces` have equal
length, and they are the two projections of a single paired traversal, so
index `i` of one corresponds to index `i` of the other. -/
theorem load_known_faces_parallel {α : Type} (root : Option (List (RootEntry α))) :
    (load_known_faces root).1.length = (load_known_faces root).2.length ∧
    (load_known_faces root).1 = (loadPairs root).map Prod.fst ∧
    (load_known_faces root).2 = (loadPairs root).map Prod.snd := by
  have h : load_known_faces root
      = ((loadPairs root).map Prod.fst, (loadPairs root).map Prod.snd) := by
    cases root with
    | none => rfl
    | some entries => simpa [load_known_faces, loadPairs] using loadEntries_eq_pairs entries
  refine ⟨?_, ?_, ?_⟩ <;> simp [h]

/-- C6: a nonexistent root directory yields two empty collections. -/
theorem load_known_faces_missing_dir {α : Type} :
    load_known_faces (none : Option (List (RootEntry α))) = ([], []) := rfl

/-! ## Model of `faces.py`: `recognize_faces` -/

/-- The external calls `recognize_faces` can make, in the order the code
issues them; the result of `recognize_faces` carries the list of calls
actually performed. -/
inductive LibCall where
  | cvtColor
  | faceLocations
  | faceEncodings
  | compareFaces
  deriving DecidableEq

/-- The external `cv2` / `face_recognition` surface used by
`recognize_faces`, as an abstract record of functions. -/
structure FaceLib (Frame Rgb Loc Enc : Type) where
  cvtColor : Frame → Rgb
  face_locations : Rgb → List Loc
  face_encodings : Rgb → List Loc → List Enc
  compare_faces : List Enc → Enc → ℚ → List Bool

/-- Index of the first `true`, modelling Python
`matches.index(True)` guarded by `True in matches`. -/
def firstTrueIdx : List Bool → Option ℕ
  | [] => none
  | true :: _ => some 0
  | false :: rest => (firstTrueIdx rest).map (· + 1)

/-- The `for enc in encs` loop of `recognize_faces` (faces.py lines 95-99).
The first component is `some results` on normal completion and `none` when
`known_names[first_match_index]` raises `IndexError`; the second component
logs one `compareFaces` call per processed encoding. -/
def recogLoop {Frame Rgb Loc Enc : Type} (lib : FaceLib Frame Rgb Loc Enc)
    (ke : List Enc) (kn : List String) (tol : ℚ) :
    List Enc → Option (List String) × List LibCall
  | [] => (some [], [])
  | enc :: rest =>
    match firstTrueIdx (lib.compare_faces ke enc tol) with
    | none =>
      ((recogLoop lib ke kn tol rest).1, .compareFaces :: (recogLoop lib ke kn tol rest).2)
    | some i =>
      match kn[i]? with
      | none => (none, [.compareFaces])
      | some nm =>
        ((recogLoop lib ke kn tol rest).1.map (nm :: ·),
         .compareFaces :: (recogLoop lib ke kn tol rest).2)

/-- `recognize_faces` (faces.py lines 83-100). An empty known set returns
the empty result before any library call; otherwise the frame is colour
converted, faces located and encoded, and each encoding compared against
the known set. -/
def recognize_faces {Frame Rgb Loc Enc : Type} (lib : FaceLib Frame Rgb Loc Enc)
    (frame : Frame) (known_encodings : List Enc) (known_names : List String)
    (tolerance : ℚ) : Option (List String) × List LibCall :=
  if known_encodings.isEmpty then (some [], [])
  else
    ((recogLoop lib known_encodings known_names tolerance
        (lib.face_encodings (lib.cvtColor frame)
          (lib.face_locations (lib.cvtColor frame)))).1,
     [.cvtColor, .faceLocations, .faceEncodings]
       ++ (recogLoop lib known_encodings known_names tolerance
            (lib.face_encodings (lib.cvtColor frame)
              (lib.face_locations (lib.cvtColor frame)))).2)

/-- Default tolerance of `recognize_faces` (faces.py line 68). -/
def defaultTolerance : ℚ := 1 / 2

/-- C4: with an empty known set, `recognize_faces` returns an empty result
and performs no external library call at all, whatever the frame and the
library behave like. -/
theorem recognize_faces_empty_known {Frame Rgb Loc Enc : Type}
    (lib : FaceLib Frame Rgb Loc Enc) (frame : Frame) (known_names : List String)
    (tolerance : ℚ) :
    recognize_faces lib frame ([] : List Enc) known_names tolerance = (some [], []) :=
  rfl

theorem firstTrueIdx_spec :
    ∀ (l : List Bool) (i : ℕ), firstTrueIdx l = some i →
      l[i]? = some true ∧ ∀ j, j < i → l[j]? = some false
  | [], i, h => by simp [firstTrueIdx] at h
  | true :: rest, i, h => by
    simp [firstTrueIdx] at h
    subst h
    exact ⟨by simp, fun j hj => absurd hj (Nat.not_lt_zero j)⟩
  | false :: rest, i, h => by
    simp [firstTrueIdx] at h
    obtain ⟨i0, hi0, rfl⟩ := h
    obtain ⟨h1, h2⟩ := firstTrueIdx_spec rest i0 hi0
    refine ⟨by simpa using h1, ?_⟩
    intro j hj
    cases j with
    | zero => simp
    | succ j0 => simpa using h2 j0 (Nat.lt_of_succ_lt_succ hj)

/-- C5: for a detected face whose comparison list has a first `true` at
index `i` (the first match in registry order — indices `below i` all
compare `false`), the loop appends `known_names[i]`; a face whose
comparison has no `true` contributes no entry. -/
theorem recognize_first_match {Frame Rgb Loc Enc : Type}
    (lib : FaceLib Frame Rgb Loc Enc) (ke : List Enc) (kn : List String)
    (tol : ℚ) (enc : Enc) (rest : List Enc) (i : ℕ)
    (hfirst : firstTrueIdx (lib.compare_faces ke enc tol) = some i) :
    (lib.compare_faces ke enc tol)[i]? = some true ∧
    (∀ j, j < i → (lib.compare_faces ke enc tol)[j]? = some false) ∧
    (recogLoop lib ke kn tol (enc :: rest)).1
      = (kn[i]?).bind (fun nm => (recogLoop lib ke kn tol rest).1.map (nm :: ·)) ∧
    (∀ enc2, firstTrueIdx (lib.compare_faces ke enc2 tol) = none →
      (recogLoop lib ke kn tol (enc2 :: rest)).1 = (recogLoop lib ke kn tol rest).1) := by
  obtain ⟨h1, h2⟩ := firstTrueIdx_spec _ i hfirst
  refine ⟨h1, h2, ?_, ?_⟩
  · rw [recogLoop, hfirst]
    cases hkn : kn[i]? with
    | none => simp [hkn]
    | some nm => simp [hkn]
  · intro enc2 hnone
    rw [recogLoop, hnone]

/-- A small concrete instantiation of the external library, used to
evaluate the recognizer theorems on closed inputs: one detected face per
frame, the constant encoding `1`, and comparison by equality of encodings. -/
def libWit : FaceLib Unit Unit Unit ℕ where
  cvtColor := fun _ => ()
  face_locations := fun _ => [()]
  face_encodings := fun _ locs => locs.map fun _ => 1
  compare_faces := fun ke enc _ => ke.map fun e => decide (e = enc)

theorem recognize_first_match_witness :
    firstTrueIdx (libWit.compare_faces [3, 1] 1 0) = some 1 ∧
    (recogLoop libWit [3, 1] ["a", "b"] 0 [1]).1 = some ["b"] ∧
    (recogLoop libWit [3, 1] ["a", "b"] 0 [9]).1 = some [] := by
  have h := recognize_first_match libWit [3, 1] ["a", "b"] 0 1 [] 1 (by decide)
  exact ⟨by decide, h.2.2.1.trans (by decide), (h.2.2.2 9 (by decide)).trans rfl⟩

theorem recogLoop_sound {Frame Rgb Loc Enc : Type} (lib : FaceLib Frame Rgb Loc Enc)
    (ke : List Enc) (kn : List String) (tol : ℚ)
    (hlen : ke.length = kn.length)
    (hcmp : ∀ enc, (lib.compare_faces ke enc tol).length = ke.length) :
    ∀ encs : List Enc, ∃ res, (recogLoop lib ke kn tol encs).1 = some res ∧
      (∀ x ∈ res, x ∈ kn) ∧ res.length ≤ encs.length
  | [] => ⟨[], rfl, by simp, by simp⟩
  | enc :: rest => by
    obtain ⟨res, hres, hmem, hlenr⟩ := recogLoop_sound lib ke kn tol hlen hcmp rest
    cases hft : firstTrueIdx (lib.compare_faces ke enc tol) with
    | none =>
      refine ⟨res, ?_, hmem, ?_⟩
      · simp [recogLoop, hft, hres]
      · exact hlenr.trans (Nat.le_succ _)
    | some i =>
      obtain ⟨h1, -⟩ := firstTrueIdx_spec _ i hft
      have hi : i < (lib.compare_faces ke enc tol).length :=
        (List.getElem?_eq_some.mp h1).1
      have hikn : i < kn.length := by
        rw [← hlen, ← hcmp enc]
        exact hi
      have hkn : kn[i]? = some kn[i] := List.getElem?_eq_getElem hikn
      refine ⟨kn[i] :: res, ?_, ?_, ?_⟩
      · simp [recogLoop, hft, hkn, hres]
      · intro x hx
        rcases List.mem_cons.mp hx with h | h
        · subst h; exact List.getElem_mem hikn
        · exact hmem x h
      · simpa using Nat.succ_le_succ hlenr

/-- C10: when the known encodings and names are parallel (equal length) and
the library returns one boolean per known encoding and one encoding per
detected location, `recognize_faces` completes normally, every returned
label is a known name, and at most one label per detected face is
returned. -/
theorem recognize_result_sound {Frame Rgb Loc Enc : Type}
    (lib : FaceLib Frame Rgb Loc Enc) (frame : Frame)
    (ke : List Enc) (kn : List String) (tol : ℚ)
    (hlen : ke.length = kn.length)
    (hcmp : ∀ enc, (lib.compare_faces ke enc tol).length = ke.length)
    (hencs : ∀ rgb locs, (lib.face_encodings rgb locs).length = locs.length) :
    ∃ res, (recognize_faces lib frame ke kn tol).1 = some res ∧
      (∀ x ∈ res, x ∈ kn) ∧
      res.length ≤ (lib.face_locations (lib.cvtColor frame)).length := by
  by_cases hke : ke.isEmpty
  · exact ⟨[], by simp [recognize_faces, hke], by simp, by simp⟩
  · obtain ⟨res, hres, hmem, hlenr⟩ :=
      recogLoop_sound lib ke kn tol hlen hcmp
        (lib.face_encodings (lib.cvtColor frame) (lib.face_locations (lib.cvtColor frame)))
    refine ⟨res, ?_, hmem, ?_⟩
    · simp [recognize_faces, hke, hres]
    · exact hlenr.trans (le_of_eq (hencs _ _))

theorem recognize_result_sound_witness :
    ∃ res, (recognize_faces libWit () [3, 1] ["a", "b"] 0).1 = some res ∧
      (∀ x ∈ res, x ∈ ["a", "b"]) ∧
      res.length ≤ (libWit.face_locations (libWit.cvtColor ())).length :=
  recognize_result_sound libWit () [3, 1] ["a", "b"] 0 (by decide)
    (fun enc => by simp [libWit])
    (fun rgb locs => by simp [libWit])

/-! ## Model of `app.py`: the cooldown-gated main loop -/

/-- Timestamps as returned by `time.time()`, idealised as rationals. -/
abbrev Time := ℚ

/-- app.py line 27. -/
def COOLDOWN_SECONDS : Time := 10

/-- Lookup in the `last_seen` dict, modelled as an association list. -/
def lookupSeen : List (String × Time) → String → Option Time
  | [], _ => none
  | (k, v) :: rest, n => if k = n then some v else lookupSeen rest n

/-- `last_seen[name] = now`: replace the entry if present, else add it. -/
def updateSeen : List (String × Time) → String → Time → List (String × Time)
  | [], n, t => [(n, t)]
  | (k, v) :: rest, n, t =>
    if k = n then (k, t) :: rest else (k, v) :: updateSeen rest n t

/-- app.py line 78: `name not in last_seen or (now - last_seen[name]) >
COOLDOWN_SECONDS`. -/
def shouldTrigger (seen : List (String × Time)) (name : String) (now : Time) : Bool :=
  match lookupSeen seen name with
  | none => true
  | some t => decide (COOLDOWN_SECONDS < now - t)

/-- One recognition handled by app.py lines 76-82: when the cooldown gate
passes, playback is triggered (`true`) and the table is stamped with the
current time; otherwise nothing happens. -/
def stepRecognition (seen : List (String × Time)) (ev : String × Time) :
    List (String × Time) × Bool :=
  if shouldTrigger seen ev.1 ev.2 then (updateSeen seen ev.1 ev.2, true)
  else (seen, false)

/-- The main loop over a chronological stream of recognitions, recording
for each whether it triggered playback. -/
def runEvents (seen : List (String × Time)) :
    List (String × Time) → List ((String × Time) × Bool)
  | [] => []
  | ev :: rest =>
    (ev, (stepRecognition seen ev).2) :: runEvents (stepRecognition seen ev).1 rest

/-- The cooldown table after the loop has consumed a stream of
recognitions. -/
def runState (seen : List (String × Time)) :
    List (String × Time) → List (String × Time)
  | [] => seen
  | ev :: rest => runState (stepRecognition seen ev).1 rest

theorem lookupSeen_updateSeen_self :
    ∀ (s : List (String × Time)) (n : String) (t : Time),
      lookupSeen (updateSeen s n t) n = some t
  | [], n, t => by simp [updateSeen, lookupSeen]
  | (k, v) :: rest, n, t => by
    by_cases h : k = n
    · simp [updateSeen, lookupSeen, h]
    · simp [updateSeen, lookupSeen, h, lookupSeen_updateSeen_self rest n t]

theorem lookupSeen_updateSeen_other :
    ∀ (s : List (String × Time)) (n m : String) (t : Time), m ≠ n →
      lookupSeen (updateSeen s n t) m = lookupSeen s m
  | [], n, m, t, h => by
    simp [updateSeen, lookupSeen]
    exact Ne.symm h
  | (k, v) :: rest, n, m, t, h => by
    by_cases hk : k = n
    · subst hk
      simp [updateSeen, lookupSeen, Ne.symm h]
    · simp [updateSeen, lookupSeen, hk, lookupSeen_updateSeen_other rest n m t h]

theorem stepRecognition_preserves (s : List (String × Time)) (ev : String × Time)
    (name : String) (T t : Time)
    (hlook : lookupSeen s name = some t) (hT : T ≤ t) (hev : T ≤ ev.2) :
    ∃ u, lookupSeen (stepRecognition s ev).1 name = some u ∧ T ≤ u := by
  unfold stepRecognition
  by_cases htr : shouldTrigger s ev.1 ev.2
  · simp only [htr, if_true]
    by_cases hn : ev.1 = name
    · subst hn
      exact ⟨ev.2, lookupSeen_updateSeen_self s ev.1 ev.2, hev⟩
    · exact ⟨t, (lookupSeen_updateSeen_other s ev.1 name ev.2 (Ne.symm hn)).trans hlook, hT⟩
  · simp only [htr, if_false]
    exact ⟨t, hlook, hT⟩

theorem triggers_separated (name : String) (T : Time) :
    ∀ (evs : List (String × Time)) (s : List (String × Time)) (t : Time),
      lookupSeen s name = some t → T ≤ t →
      (∀ e ∈ evs, T ≤ e.2) →
      ∀ T2, ((name, T2), true) ∈ runEvents s evs →
        COOLDOWN_SECONDS < T2 - T
  | [], s, t, _, _, _, T2, hmem => by simp [runEvents] at hmem
  | ev :: rest, s, t, hlook, hT, hafter, T2, hmem => by
    rcases List.mem_cons.mp hmem with h | h
    · have hev : ev = (name, T2) := (congrArg Prod.fst h).symm
      have hb : (stepRecognition s ev).2 = true := (congrArg Prod.snd h).symm
      have htr : shouldTrigger s ev.1 ev.2 = true := by
        by_contra hc
        rw [stepRecognition, if_neg (by simpa using hc)] at hb
        exact Bool.false_ne_true hb
      rw [hev] at htr
      rw [shouldTrigger, hlook] at htr
      have hlt : COOLDOWN_SECONDS < T2 - t := of_decide_eq_true htr
      have : T2 - t ≤ T2 - T := by linarith
      linarith
    · obtain ⟨u, hu, hTu⟩ :=
        stepRecognition_preserves s ev name T t hlook hT (hafter ev (by simp))
      exact triggers_separated name T rest (stepRecognition s ev).1 u hu hTu
        (fun e he => hafter e (by simp [he])) T2 h

theorem runState_entry_fixed (name : String) (T : Time) :
    ∀ (evs : List (String × Time)) (s : List (String × Time)),
      lookupSeen s name = some T →
      (∀ e ∈ evs, e.1 = name → ¬ (COOLDOWN_SECONDS < e.2 - T)) →
      lookupSeen (runState s evs) name = some T
  | [], s, hlook, _ => hlook
  | ev :: rest, s, hlook, hblock => by
    rw [runState]
    by_cases hn : ev.1 = name
    · have hng : shouldTrigger s ev.1 ev.2 = false := by
        rw [hn, shouldTrigger, hlook]
        exact decide_eq_false (hblock ev (by simp) hn)
      rw [stepRecognition, hng]
      simp only [Bool.false_eq_true, if_false]
      exact runState_entry_fixed name T rest s hlook
        (fun e he => hblock e (by simp [he]))
    · have hpres : lookupSeen (stepRecognition s ev).1 name = some T := by
        rw [stepRecognition]
        by_cases htr : shouldTrigger s ev.1 ev.2
        · rw [if_pos htr]
          exact (lookupSeen_updateSeen_other s ev.1 name ev.2 (Ne.symm hn)).trans hlook
        · rw [if_neg htr]
          exact hlook
      exact runState_entry_fixed name T rest (stepRecognition s ev).1 hpres
        (fun e he => hblock e (by simp [he]))

theorem runEvents_append (s : List (String × Time)) :
    ∀ (l1 l2 : List (String × Time)),
      runEvents s (l1 ++ l2) = runEvents s l1 ++ runEvents (runState s l1) l2 := by
  intro l1
  induction l1 generalizing s with
  | nil => intro l2; simp [runEvents, runState]
  | cons ev rest ih =>
    intro l2
    simp [runEvents, runState, ih]

/-- C1 (amended): after playback is triggered for `name` at time `T`, any
later recognition of `name` that triggers again lies strictly more than
`COOLDOWN_SECONDS` after `T` (so in particular no recognition within the
window, boundary included, re-triggers); and once strictly more than
`COOLDOWN_SECONDS` have elapsed the label is eligible again: a recognition
of `name` at such a time `T1`, after recognitions that never passed the
gate for `name`, does trigger playback. -/
theorem main_loop_cooldown (seen0 : List (String × Time)) (name : String) (T : Time)
    (evs : List (String × Time)) (T1 : Time)
    (_htrig : shouldTrigger seen0 name T = true)
    (hafter : ∀ e ∈ evs, T ≤ e.2) :
    (∀ T2, ((name, T2), true) ∈ runEvents (updateSeen seen0 name T) evs →
      COOLDOWN_SECONDS < T2 - T) ∧
    ((∀ e ∈ evs, e.1 = name → e.2 - T ≤ COOLDOWN_SECONDS) →
      COOLDOWN_SECONDS < T1 - T →
      ((name, T1), true) ∈ runEvents (updateSeen seen0 name T) (evs ++ [(name, T1)])) := by
  have hself := lookupSeen_updateSeen_self seen0 name T
  constructor
  · intro T2 hmem
    exact triggers_separated name T evs _ T hself le_rfl hafter T2 hmem
  · intro hblock hgt
    have hfix := runState_entry_fixed name T evs (updateSeen seen0 name T) hself
      (fun e he hn => not_lt.mpr (hblock e he hn))
    rw [runEvents_append]
    refine List.mem_append_right _ ?_
    have htr1 : shouldTrigger (runState (updateSeen seen0 name T) evs) name T1 = true := by
      rw [shouldTrigger, hfix]
      exact decide_eq_true hgt
    simp [runEvents, stepRecognition, htr1]

theorem main_loop_cooldown_witness :
    shouldTrigger [] "Alice" 0 = true ∧
    (("Alice", (11 : Time)), true)
      ∈ runEvents (updateSeen [] "Alice" 0) ([("Alice", 5)] ++ [("Alice", 11)]) :=
  ⟨rfl,
   (main_loop_cooldown [] "Alice" 0 [("Alice", 5)] 11 rfl
      (by intro e he; simp at he; subst he; norm_num)).2
     (by intro e he hn; simp at he; subst he; norm_num [COOLDOWN_SECONDS])
     (by norm_num [COOLDOWN_SECONDS])⟩

/-- C1 counterexample: a label triggered at time 0 and recognized again at
time 10 satisfies `T1 - T ≥ 10` but the second recognition does not trigger
playback, because the gate at app.py line 78 is the strict comparison
`now - last_seen[name] > COOLDOWN_SECONDS`. -/
theorem cooldown_boundary_counterexample :
    (10 : Time) - 0 ≥ COOLDOWN_SECONDS ∧
    runEvents [] [("Alice", 0), ("Alice", 10)]
      = [(("Alice", 0), true), (("Alice", 10), false)] := by
  refine ⟨by norm_num [COOLDOWN_SECONDS], ?_⟩
  have h1 : stepRecognition [] ("Alice", 0) = ([("Alice", 0)], true) := rfl
  have h2 : shouldTrigger [("Alice", (0 : Time))] "Alice" 10 = false := by
    rw [shouldTrigger]
    simp [lookupSeen, COOLDOWN_SECONDS]
  have h3 : stepRecognition [("Alice", (0 : Time))] ("Alice", 10) = ([("Alice", 0)], false) := by
    rw [stepRecognition, h2]
    simp
  simp [runEvents, h1, h3]

end Strollin
